import Mathlib

/-!
Verification of the `rafttest` cluster harness.

The development shallowly embeds the harness's pure control flow:

* `Other` — pick an index of the raft slice different from the given ones
  (`cluster.go`).
* `Shutdown` — the shutdown fan-in loop with its 5-second ceiling
  (`cluster.go`).
* `newDefaultNode`, `bootstrapCluster`, `Cluster` — cluster construction and
  bootstrap (`cluster.go`).  Fallible external calls (`raft.BootstrapCluster`,
  `raft.NewRaft`) are abstracted by error-valued environments, and
  `t.Fatalf` is modelled by `Except.error`.
* `watchStep`, `watchRun`, `next`, `nextMatching` — the leadership-change
  multiplexer (`notify.go`).  Channel scheduling is modelled by an explicit
  script of select outcomes, and wall-clock waiting by integer nanosecond
  delays.
-/

namespace RaftTest

/-- Information about a leadership change in a node (struct
`leadershipChange`): the index of the node whose leadership status changed,
and whether leadership was acquired or lost. -/
structure leadershipChange where
  On : Nat
  Acquired : Bool
deriving DecidableEq, Repr

/-! ## `Other` (cluster.go) -/

/-- The inner loop of `Other`: the candidate index `j` is kept iff it differs
from every excluded index. -/
def differentFrom (indexes : List Int) (j : Int) : Bool :=
  indexes.all (fun i => i != j)

/-- The outer loop of `Other`, scanning candidate indices upward from `j`. -/
def otherAux (indexes : List Int) : List α → Int → Int
  | [], _ => -1
  | _ :: rest, j => if differentFrom indexes j then j else otherAux indexes rest (j + 1)

/-- `Other` returns the index of a raft node which differs from the given
ones, or `-1` if every index is excluded (cluster.go, lines 130-144). -/
def Other (rafts : List α) (indexes : List Int) : Int :=
  otherAux indexes rafts 0

theorem differentFrom_eq_true_iff (indexes : List Int) (j : Int) :
    differentFrom indexes j = true ↔ j ∉ indexes := by
  simp only [differentFrom, List.all_eq_true, bne_iff_ne, ne_eq]
  constructor
  · intro h hj
    exact h j hj rfl
  · intro h i hi hij
    exact h (hij ▸ hi)

theorem otherAux_eq_neg_one_iff (indexes : List Int) (rafts : List α) (j0 : Int)
    (h0 : 0 ≤ j0) :
    otherAux indexes rafts j0 = -1 ↔
      ∀ k : Nat, k < rafts.length → (j0 + k) ∈ indexes := by
  induction rafts generalizing j0 with
  | nil => simp [otherAux]
  | cons a rest ih =>
    simp only [otherAux]
    by_cases hd : differentFrom indexes j0 = true
    · rw [if_pos hd]
      constructor
      · intro h
        omega
      · intro h
        have h00 := h 0 (by simp)
        rw [differentFrom_eq_true_iff] at hd
        simp at h00
        exact absurd h00 hd
    · rw [if_neg hd]
      rw [ih (j0 + 1) (by omega)]
      have hmem : j0 ∈ indexes := by
        by_contra hj
        exact hd ((differentFrom_eq_true_iff indexes j0).mpr hj)
      constructor
      · intro h k hk
        cases k with
        | zero => simpa using hmem
        | succ m =>
          have hm := h m (by simpa using Nat.lt_of_succ_lt_succ hk)
          have e : j0 + 1 + (m : Int) = j0 + ((m + 1 : Nat) : Int) := by
            push_cast
            ring
          rw [e] at hm
          exact hm
      · intro h k hk
        have hm := h (k + 1) (by simpa using Nat.succ_lt_succ hk)
        have e : j0 + ((k + 1 : Nat) : Int) = j0 + 1 + (k : Int) := by
          push_cast
          ring
        rw [e] at hm
        exact hm

theorem otherAux_range (indexes : List Int) (rafts : List α) (j0 : Int)
    (h0 : 0 ≤ j0) :
    otherAux indexes rafts j0 = -1 ∨
      (j0 ≤ otherAux indexes rafts j0 ∧
       otherAux indexes rafts j0 < j0 + rafts.length ∧
       otherAux indexes rafts j0 ∉ indexes) := by
  induction rafts generalizing j0 with
  | nil => left; rfl
  | cons a rest ih =>
    simp only [otherAux]
    by_cases hd : differentFrom indexes j0 = true
    · right
      rw [if_pos hd]
      refine ⟨le_refl j0, by simp only [List.length_cons]; push_cast; omega, ?_⟩
      exact (differentFrom_eq_true_iff indexes j0).mp hd
    · rw [if_neg hd]
      rcases ih (j0 + 1) (by omega) with h | ⟨h1, h2, h3⟩
      · left; exact h
      · right
        refine ⟨by omega, ?_, h3⟩
        simp only [List.length_cons]
        push_cast
        omega

theorem otherAux_min (indexes : List Int) (rafts : List α) (j0 : Int)
    (h0 : 0 ≤ j0) (k : Nat) (hk : k < rafts.length)
    (hnot : (j0 + k) ∉ indexes)
    (hmin : ∀ m : Nat, m < k → (j0 + m) ∈ indexes) :
    otherAux indexes rafts j0 = j0 + k := by
  induction rafts generalizing j0 k with
  | nil => simp at hk
  | cons a rest ih =>
    simp only [otherAux]
    by_cases hd : differentFrom indexes j0 = true
    · rw [if_pos hd]
      have hk0 : k = 0 := by
        by_contra hne
        have := hmin 0 (Nat.pos_of_ne_zero hne)
        rw [differentFrom_eq_true_iff] at hd
        simp at this
        exact hd this
      simp [hk0]
    · rw [if_neg hd]
      have hmem : j0 ∈ indexes := by
        by_contra hj
        exact hd ((differentFrom_eq_true_iff indexes j0).mpr hj)
      cases k with
      | zero =>
        simp at hnot
        exact absurd hmem hnot
      | succ m =>
        have heq : j0 + ((m + 1 : Nat) : Int) = (j0 + 1) + (m : Int) := by
          push_cast
          ring
        rw [heq]
        refine ih (j0 + 1) (by omega) m (by simpa using Nat.lt_of_succ_lt_succ hk) ?_ ?_
        · rw [← heq]; exact hnot
        · intro p hp
          have hq := hmin (p + 1) (by simpa using Nat.succ_lt_succ hp)
          have e : j0 + ((p + 1 : Nat) : Int) = j0 + 1 + (p : Int) := by
            push_cast
            ring
          rw [e] at hq
          exact hq

/-- C8: `Other` never returns an excluded list index; it returns the sentinel
`-1` exactly when every index of the list is excluded; and for a list of at
least two instances with a single excluded index it always returns a valid
index in `[0, N)`. -/
theorem Other_spec (rafts : List α) (indexes : List Int) :
    (Other rafts indexes ≠ -1 →
       0 ≤ Other rafts indexes ∧ Other rafts indexes < rafts.length ∧
       Other rafts indexes ∉ indexes) ∧
    (Other rafts indexes = -1 ↔
       ∀ j : Int, 0 ≤ j → j < rafts.length → j ∈ indexes) ∧
    (2 ≤ rafts.length → ∀ i0 : Int,
       0 ≤ Other rafts [i0] ∧ Other rafts [i0] < rafts.length) := by
  refine ⟨?_, ?_, ?_⟩
  · intro hne
    rcases otherAux_range indexes rafts 0 le_rfl with h | ⟨h1, h2, h3⟩
    · exact absurd h hne
    · exact ⟨by simpa using h1, by simpa using h2, h3⟩
  · rw [Other, otherAux_eq_neg_one_iff indexes rafts 0 le_rfl]
    constructor
    · intro h j hj0 hjlen
      have := h j.toNat (by omega)
      simpa [Int.toNat_of_nonneg hj0] using this
    · intro h k hk
      have := h k (by positivity) (by simpa using hk)
      simpa using this
  · intro hlen i0
    have hne : Other rafts [i0] ≠ -1 := by
      intro heq
      rw [Other, otherAux_eq_neg_one_iff [i0] rafts 0 le_rfl] at heq
      have h0 := heq 0 (by omega)
      have h1 := heq 1 (by omega)
      simp at h0 h1
      omega
    rcases otherAux_range [i0] rafts 0 le_rfl with h | ⟨h1, h2, _⟩
    · exact absurd h hne
    · exact ⟨by simpa using h1, by simpa using h2⟩

/-- C8 witness: for a two-element list with index 0 excluded, `Other`
returns the valid index 1. -/
theorem Other_spec_witness :
    2 ≤ ([true, false] : List Bool).length ∧
    0 ≤ Other [true, false] [(0 : Int)] ∧
    Other [true, false] [(0 : Int)] < ([true, false] : List Bool).length ∧
    Other [true, false] [(0 : Int)] = 1 := by
  have h := (Other_spec ([true, false] : List Bool) [(0 : Int)]).2.2 (by decide) 0
  exact ⟨by decide, h.1, h.2, by decide⟩

/-- C10: `Other` returns the smallest index `j` in `[0, len)` not contained
in the excluded indices, and `-1` when no such index exists — in particular
`-1` for the empty list. -/
theorem Other_smallest (rafts : List α) (indexes : List Int) :
    (∀ k : Nat, k < rafts.length → (k : Int) ∉ indexes →
       (∀ m : Nat, m < k → (m : Int) ∈ indexes) →
       Other rafts indexes = k) ∧
    ((∀ k : Nat, k < rafts.length → (k : Int) ∈ indexes) →
       Other rafts indexes = -1) ∧
    Other ([] : List α) indexes = -1 := by
  refine ⟨?_, ?_, rfl⟩
  · intro k hk hnot hmin
    have := otherAux_min indexes rafts 0 le_rfl k hk (by simpa using hnot)
      (fun m hm => by simpa using hmin m hm)
    simpa using this
  · intro h
    rw [Other, otherAux_eq_neg_one_iff indexes rafts 0 le_rfl]
    intro k hk
    simpa using h k hk

/-- C10 witness: with indices 0 and 2 excluded, `Other` on a three-element
list returns the smallest free index 1; on the empty list it returns -1. -/
theorem Other_smallest_witness :
    Other [10, 20, 30] [(0 : Int), 2] = 1 ∧ Other ([] : List Nat) [(0 : Int), 2] = -1 := by
  have h := (Other_smallest ([10, 20, 30] : List Nat) [(0 : Int), 2]).1 1
    (by decide) (by decide) (by decide)
  exact ⟨h, (Other_smallest ([] : List Nat) [(0 : Int), 2]).2.2⟩

/-! ## The leadership multiplexer (notify.go)

`watch` performs a dynamic select over the live per-node notify channels.
One select outcome is a pair of the chosen position `i` in the current
`cases` slice and either `some b` (a received boolean) or `none` (the
channel was found closed).  The body of the Go loop removes a closed
channel's case and then unconditionally sends a `leadershipChange` built
from the case position and `value.Bool()` (the zero value `false` for a
closed channel). -/

/-- One iteration of the body of the `watch` loop: given the current live
`cases` (each element is the node index owning that select case) and the
select outcome at position `i`, return the updated `cases` and the event
sent on the output channel. -/
def watchStep (cases : List Nat) (i : Nat) (recv : Option Bool) :
    List Nat × leadershipChange :=
  match recv with
  | none => (cases.eraseIdx i, { On := i, Acquired := false })
  | some b => (cases, { On := i, Acquired := b })

/-- The `watch` loop, driven by a script of select outcomes: while more than
one case is live, process the next outcome with `watchStep`; otherwise stop,
leaving the remaining script unconsumed.  Returns the emitted events and the
final live set. -/
def watchRun : List Nat → List (Nat × Option Bool) → List leadershipChange × List Nat
  | cases, [] => ([], cases)
  | cases, (i, r) :: script =>
    if 1 < cases.length then
      let s := watchStep cases i r
      let t := watchRun s.1 script
      (s.2 :: t.1, t.2)
    else ([], cases)

/-- C1: at a closed channel, the `watch` body does not only remove the case:
it additionally sends the event `{On := i, Acquired := false}` built from the
select position and the channel's zero value; moreover, once a case has been
removed, the `On` field of a forwarded value is the select position, not the
owning node's index (here node 2's `true` signal is attributed to index 1). -/
theorem watchStep_close_emits_event :
    watchStep [0, 1] 0 none = ([1], { On := 0, Acquired := false }) ∧
    (watchStep [1, 2] 1 (some true)).2 = { On := 1, Acquired := true } := by
  exact ⟨rfl, rfl⟩

/-- C9: the `watch` loop stops as soon as at most one channel is live,
consuming nothing further, and along any run the live set never shrinks
below one channel: the last remaining channel is never consumed. -/
theorem watchRun_termination (cases : List Nat) (script : List (Nat × Option Bool)) :
    (cases.length ≤ 1 → watchRun cases script = ([], cases)) ∧
    (1 ≤ cases.length → 1 ≤ (watchRun cases script).2.length) := by
  induction script generalizing cases with
  | nil =>
    exact ⟨fun _ => rfl, fun h => by simpa [watchRun] using h⟩
  | cons step script ih =>
    obtain ⟨i, r⟩ := step
    constructor
    · intro h
      rw [watchRun, if_neg (by omega)]
    · intro h
      rw [watchRun]
      by_cases hlen : 1 < cases.length
      · rw [if_pos hlen]
        refine (ih (watchStep cases i r).1).2 ?_
        cases r with
        | none =>
          simp only [watchStep, List.length_eraseIdx]
          split
          · omega
          · omega
        | some b => simpa [watchStep] using by omega
      · rw [if_neg hlen]
        exact h

/-- C9 witness: with three live channels and a script that closes two of
them, the run leaves one live channel; with one live channel the run
consumes nothing. -/
theorem watchRun_termination_witness :
    watchRun [0, 1, 2] [(0, none), (0, none), (0, some true)] = ([], [2]) ∨
    (watchRun [5] [(0, none)] = ([], [5]) ∧
     1 ≤ (watchRun [0, 1, 2] [(0, none), (0, none), (0, some true)]).2.length) := by
  refine Or.inr ⟨(watchRun_termination [5] [(0, none)]).1 (by decide), ?_⟩
  exact (watchRun_termination [0, 1, 2] [(0, none), (0, none), (0, some true)]).2 (by decide)

/-! ## `next` and `nextMatching` (notify.go)

The consumer side is modelled against a script of timed deliveries on the
output channel: each entry is the (nonnegative) delay, in nanoseconds,
between starting to wait and the event being received, paired with the
event.  `time.After` in `next` is modelled by comparing the delay with the
remaining timeout; `t.Fatalf` is modelled by `none`.  The confirmation
calls made after a matching event (`WaitLeader` / `waitTimeout`, not under
src/) are modelled from the spec: `nextLost`/`nextAcquired` poll until the
node's observable state confirms the transition, within the remaining
budget, failing the test otherwise; the abstract predicate `confirm`
returns whether that confirmation succeeds for the given node, polarity and
remaining budget. -/

/-- `next`: block until the output channel yields an event or the timeout
elapses; `none` models the fatal "no notification received" path. -/
def next (timeout : Int) :
    List (Int × leadershipChange) → Option (leadershipChange × List (Int × leadershipChange))
  | [] => none
  | (d, e) :: rest => if d < timeout then some (e, rest) else none

/-- `nextMatching`: loop receiving events via `next`; a non-matching event
reduces the remaining timeout by the elapsed wait and the loop continues; a
matching event is confirmed (with the current remaining budget) and its node
index returned.  `none` models every fatal path. -/
def nextMatching (acquired : Bool) (confirm : Nat → Bool → Int → Bool) :
    Int → List (Int × leadershipChange) → Option Nat
  | _, [] => none
  | timeout, (d, e) :: rest =>
    if d < timeout then
      if e.Acquired != acquired then
        nextMatching acquired confirm (timeout - d) rest
      else if confirm e.On acquired timeout then some e.On else none
    else none

theorem nextMatching_eq_next (acquired : Bool) (confirm : Nat → Bool → Int → Bool)
    (timeout : Int) (events : List (Int × leadershipChange)) (d : Int)
    (e : leadershipChange) (rest : List (Int × leadershipChange))
    (h : next timeout events = some (e, rest)) (hd : events = (d, e) :: rest) :
    nextMatching acquired confirm timeout events =
      if e.Acquired != acquired then nextMatching acquired confirm (timeout - d) rest
      else if confirm e.On acquired timeout then some e.On else none := by
  subst hd
  rw [next] at h
  by_cases hlt : d < timeout
  · rw [nextMatching, if_pos hlt]
  · rw [if_neg hlt] at h
    exact absurd h (by simp)

/-- C2: `nextMatching timeout acquired` discards every event of the opposite
polarity, returns the node index of the first matching event, and is fatal
when no matching event arrives; with nonnegative delays the timeout budget
is wall-clock from the call: the first matching event is accepted iff the
total delay spent on it and on all discarded events is below the original
timeout, and the confirmation step runs with the original timeout minus the
time spent on the discarded events. -/
theorem nextMatching_spec (acquired : Bool) (confirm : Nat → Bool → Int → Bool)
    (timeout : Int) (events : List (Int × leadershipChange))
    (hpos : ∀ p ∈ events, 0 ≤ p.1) :
    (events.dropWhile (fun p => p.2.Acquired != acquired) = [] →
       nextMatching acquired confirm timeout events = none) ∧
    (∀ d e rest,
       events.dropWhile (fun p => p.2.Acquired != acquired) = (d, e) :: rest →
       e.Acquired = acquired ∧
       nextMatching acquired confirm timeout events =
         (if ((events.takeWhile (fun p => p.2.Acquired != acquired)).map Prod.fst).sum + d
              < timeout then
            (if confirm e.On acquired
                (timeout -
                  ((events.takeWhile (fun p => p.2.Acquired != acquired)).map Prod.fst).sum) =
                true
             then some e.On else none)
          else none)) := by
  induction events generalizing timeout with
  | nil =>
    constructor
    · intro _
      rfl
    · intro d e rest h
      simp at h
  | cons p events ih =>
    obtain ⟨d0, e0⟩ := p
    have hpos0 : 0 ≤ d0 := hpos (d0, e0) (by simp)
    have hposRest : ∀ q ∈ events, 0 ≤ q.1 := fun q hq => hpos q (by simp [hq])
    by_cases hm : (e0.Acquired != acquired) = true
    · -- the head event is discarded
      have hdw : ((d0, e0) :: events).dropWhile (fun p => p.2.Acquired != acquired) =
          events.dropWhile (fun p => p.2.Acquired != acquired) := by
        rw [List.dropWhile_cons_of_pos (by simpa using hm)]
      have htw : ((d0, e0) :: events).takeWhile (fun p => p.2.Acquired != acquired) =
          (d0, e0) :: events.takeWhile (fun p => p.2.Acquired != acquired) := by
        rw [List.takeWhile_cons_of_pos (by simpa using hm)]
      have hstep : nextMatching acquired confirm timeout ((d0, e0) :: events) =
          if d0 < timeout then nextMatching acquired confirm (timeout - d0) events
          else none := by
        rw [nextMatching]
        by_cases hlt : d0 < timeout
        · rw [if_pos hlt, if_pos hm, if_pos hlt]
        · rw [if_neg hlt, if_neg hlt]
      constructor
      · intro h
        rw [hdw] at h
        rw [hstep]
        by_cases hlt : d0 < timeout
        · rw [if_pos hlt]
          exact (ih (timeout - d0) hposRest).1 h
        · rw [if_neg hlt]
      · intro d e rest h
        rw [hdw] at h
        obtain ⟨hacq, hrec⟩ := (ih (timeout - d0) hposRest).2 d e rest h
        refine ⟨hacq, ?_⟩
        rw [hstep, htw]
        have hdmem : (d, e) ∈ events := by
          have hsub := List.dropWhile_sublist
            (fun p : Int × leadershipChange => p.2.Acquired != acquired) (l := events)
          exact hsub.mem (by rw [h]; simp)
        have hdpos : 0 ≤ d := hposRest (d, e) hdmem
        have hsumpos :
            0 ≤ ((events.takeWhile (fun p => p.2.Acquired != acquired)).map Prod.fst).sum := by
          refine List.sum_nonneg ?_
          intro x hx
          obtain ⟨q, hq, hqx⟩ := List.mem_map.mp hx
          have hqmem : q ∈ events := (List.takeWhile_sublist
            (fun p : Int × leadershipChange => p.2.Acquired != acquired) (l := events)).mem hq
          exact hqx ▸ hposRest q hqmem
        by_cases hlt : d0 < timeout
        · rw [if_pos hlt, hrec]
          have hcond : (((events.takeWhile (fun p => p.2.Acquired != acquired)).map
              Prod.fst).sum + d < timeout - d0) ↔
              (((d0, e0) :: events.takeWhile (fun p => p.2.Acquired != acquired)).map
              Prod.fst).sum + d < timeout := by
            simp only [List.map_cons, List.sum_cons]
            omega
          have hbud : timeout - d0 -
              ((events.takeWhile (fun p => p.2.Acquired != acquired)).map Prod.fst).sum =
              timeout - (((d0, e0) :: events.takeWhile
                (fun p => p.2.Acquired != acquired)).map Prod.fst).sum := by
            simp only [List.map_cons, List.sum_cons]
            omega
          rw [hbud]
          exact if_congr hcond rfl rfl
        · rw [if_neg hlt]
          rw [if_neg (by simp only [List.map_cons, List.sum_cons]; omega)]
    · -- the head event matches
      have hacq : e0.Acquired = acquired := by
        revert hm
        cases e0.Acquired <;> cases acquired <;> simp
      have hdw : ((d0, e0) :: events).dropWhile (fun p => p.2.Acquired != acquired) =
          (d0, e0) :: events := by
        rw [List.dropWhile_cons_of_neg (by simpa using hm)]
      have htw : ((d0, e0) :: events).takeWhile (fun p => p.2.Acquired != acquired) = [] := by
        rw [List.takeWhile_cons_of_neg (by simpa using hm)]
      constructor
      · intro h
        rw [hdw] at h
        simp at h
      · intro d e rest h
        rw [hdw] at h
        obtain ⟨hd, he, hrest⟩ : d0 = d ∧ e0 = e ∧ events = rest := by
          have h1 := h
          injection h1 with h1a h1b
          injection h1a with h2a h2b
          exact ⟨h2a, h2b, h1b⟩
        subst hd
        subst he
        subst hrest
        refine ⟨hacq, ?_⟩
        rw [htw]
        simp only [List.map_nil, List.sum_nil, zero_add, sub_zero]
        rw [nextMatching]
        by_cases hlt : d0 < timeout
        · rw [if_pos hlt, if_neg (by simp [hm]), if_pos hlt]
        · rw [if_neg hlt, if_neg hlt]

/-- C2 witness: with a lost-leadership event after 3ns followed by an
acquired-leadership event after 4 more ns, `nextMatching` with polarity
`true`, an always-succeeding confirmation and a 10ns budget discards the
first event and returns node 1, the first matching event's node. -/
theorem nextMatching_spec_witness :
    nextMatching true (fun _ _ _ => true) 10
      [(3, { On := 0, Acquired := false }), (4, { On := 1, Acquired := true })] = some 1 := by
  have h := (nextMatching_spec true (fun _ _ _ => true) 10
      [(3, { On := 0, Acquired := false }), (4, { On := 1, Acquired := true })]
      (by decide)).2 4 { On := 1, Acquired := true } [] (by decide)
  rw [h.2]
  decide

/-! ## Default node dependencies (cluster.go)

Durations are rational numbers of nanoseconds.  The opaque parts of a
dependency set (logger, stores, snapshot store) play no role in any claim
and are omitted; the fields below are the ones the harness reads. -/

/-- One millisecond, in nanoseconds. -/
def millisecond : ℚ := 1000000

/-- Five seconds, in nanoseconds: the shutdown ceiling. -/
def second : ℚ := 1000000000

/-- Modelled from the spec: the `Duration` helper (defined in a repository
file not under src/) scales a default timeout by the global latency
multiplier read from `GO_RAFT_TEST_LATENCY`; values greater than 1.0 scale
every timeout proportionally and 1.0 leaves the value unchanged. -/
def Duration (latency : ℚ) (d : ℚ) : ℚ := latency * d

/-- The dependencies of a single test raft node (struct `node`): the four
configuration timeouts, the transport's local address, whether the
transport implements `raft.WithPeers`, and the bootstrap flag. -/
structure node where
  HeartbeatTimeout : ℚ
  ElectionTimeout : ℚ
  LeaderLeaseTimeout : ℚ
  CommitTimeout : ℚ
  localAddr : String
  withPeers : Bool
  Bootstrap : Bool
deriving DecidableEq, Repr

/-- `newDefaultNode`: default dependencies for node `i` — an in-memory
transport addressed by the decimal index (which implements `WithPeers`),
10ms heartbeat/election/leader-lease timeouts and a 5ms commit timeout,
each passed through `Duration`, and the bootstrap flag set. -/
def newDefaultNode (latency : ℚ) (i : Nat) : node :=
  { HeartbeatTimeout := Duration latency (10 * millisecond)
    ElectionTimeout := Duration latency (10 * millisecond)
    LeaderLeaseTimeout := Duration latency (10 * millisecond)
    CommitTimeout := Duration latency (5 * millisecond)
    localAddr := toString i
    withPeers := true
    Bootstrap := true }

/-- C7 counterexample: at latency multiplier 1.0 the default election
timeout equals 10 milliseconds exactly, so it is not sub-10-millisecond. -/
theorem defaultElectionTimeout_not_sub_ten_ms :
    ¬ (newDefaultNode 1 0).ElectionTimeout < 10 * millisecond ∧
    (newDefaultNode 1 0).ElectionTimeout = 10 * millisecond := by
  constructor
  · simp [newDefaultNode, Duration]
  · simp [newDefaultNode, Duration]

/-- C7 (amended): every default dependency set carries 10-millisecond
(at most 10ms) election, heartbeat and leader-lease timeouts and a
5-millisecond (at most 5ms) commit timeout, each scaled proportionally by
the latency multiplier; a multiplier of 1.0 leaves every default timeout
unchanged. -/
theorem newDefaultNode_timeouts (latency : ℚ) (i : Nat) :
    (newDefaultNode latency i).ElectionTimeout
        = latency * (newDefaultNode 1 i).ElectionTimeout ∧
    (newDefaultNode latency i).HeartbeatTimeout
        = latency * (newDefaultNode 1 i).HeartbeatTimeout ∧
    (newDefaultNode latency i).LeaderLeaseTimeout
        = latency * (newDefaultNode 1 i).LeaderLeaseTimeout ∧
    (newDefaultNode latency i).CommitTimeout
        = latency * (newDefaultNode 1 i).CommitTimeout ∧
    (newDefaultNode 1 i).ElectionTimeout = 10 * millisecond ∧
    (newDefaultNode 1 i).HeartbeatTimeout = 10 * millisecond ∧
    (newDefaultNode 1 i).LeaderLeaseTimeout = 10 * millisecond ∧
    (newDefaultNode 1 i).CommitTimeout = 5 * millisecond ∧
    (newDefaultNode 1 i).ElectionTimeout ≤ 10 * millisecond ∧
    (newDefaultNode 1 i).CommitTimeout ≤ 5 * millisecond := by
  refine ⟨?_, ?_, ?_, ?_, ?_, ?_, ?_, ?_, ?_, ?_⟩ <;>
    simp [newDefaultNode, Duration]

/-! ## Cluster bootstrap (cluster.go)

The node map `map[int]*node` is modelled as an association list whose order
stands for the (arbitrary) Go map iteration order; all theorems quantify
over every order.  `t.Fatalf` is `Except.error`; the fallible
`raft.BootstrapCluster` call is abstracted by an error environment
`bootErr` giving, per node index, the error it would return. -/

/-- A `raft.Server` entry of the bootstrap configuration: the decimal node
index as identifier, plus the transport's local address. -/
structure server where
  ID : String
  Address : String
deriving DecidableEq, Repr

/-- The server entry built for bootstrapping node `i` in `bootstrapCluster`. -/
def mkServer (i : Nat) (n : node) : server :=
  { ID := toString i, Address := n.localAddr }

/-- The bootstrap membership: one server entry per node with the bootstrap
flag set, in map order. -/
def mkServers (nodes : List (Nat × node)) : List server :=
  (nodes.filter (fun p => p.2.Bootstrap)).map (fun p => mkServer p.1 p.2)

/-- The inner loop of the first `bootstrapCluster` pass for bootstrapping
node `(i, n1)`: walk all nodes, skipping `n1` itself and nodes opted out of
bootstrap; for each remaining peer, fail fatally unless `n1`'s transport
implements `WithPeers`, otherwise connect `n1`'s transport to the peer's.
Returns the ordered pairs connected. -/
def connectInner (i : Nat) (n1 : node) : List (Nat × node) → Except String (List (Nat × Nat))
  | [] => Except.ok []
  | (j, n2) :: rest =>
    if j == i || !n2.Bootstrap then connectInner i n1 rest
    else if n1.withPeers then
      match connectInner i n1 rest with
      | Except.ok cs => Except.ok ((i, j) :: cs)
      | Except.error e => Except.error e
    else Except.error ("transport of node " ++ toString i ++ " does not implement WithPeers")

/-- The first pass of `bootstrapCluster`: for every bootstrapping node (in
map order) collect its server entry and connect its transport to every
other bootstrapping node's transport.  `all` is the full node map over
which the inner loop ranges. -/
def bootstrapPhase1 (all : List (Nat × node)) :
    List (Nat × node) → Except String (List server × List (Nat × Nat))
  | [] => Except.ok ([], [])
  | (i, n1) :: rest =>
    if !n1.Bootstrap then bootstrapPhase1 all rest
    else
      match connectInner i n1 all with
      | Except.error e => Except.error e
      | Except.ok cs =>
        match bootstrapPhase1 all rest with
        | Except.error e => Except.error e
        | Except.ok (ss, cs') => Except.ok (mkServer i n1 :: ss, cs ++ cs')

/-- The second pass of `bootstrapCluster`: call `raft.BootstrapCluster` with
the one configuration `cfg` on every bootstrapping node's stores, failing
fatally at the first error.  Returns the writes performed, as pairs of node
index and written membership. -/
def bootstrapPhase2 (cfg : List server) (bootErr : Nat → Option String) :
    List (Nat × node) → Except String (List (Nat × List server))
  | [] => Except.ok []
  | (i, n) :: rest =>
    if !n.Bootstrap then bootstrapPhase2 cfg bootErr rest
    else
      match bootErr i with
      | some e => Except.error ("failed to bootstrap cluster: " ++ e)
      | none =>
        match bootstrapPhase2 cfg bootErr rest with
        | Except.error e => Except.error e
        | Except.ok ws => Except.ok ((i, cfg) :: ws)

/-- `bootstrapCluster`: connect the bootstrapping nodes pairwise, build the
configuration from the collected servers, then bootstrap every
bootstrapping node with it.  The result carries the connections made and
the bootstrap writes performed. -/
def bootstrapCluster (nodes : List (Nat × node)) (bootErr : Nat → Option String) :
    Except String (List (Nat × Nat) × List (Nat × List server)) :=
  match bootstrapPhase1 nodes nodes with
  | Except.error e => Except.error e
  | Except.ok (ss, cs) =>
    match bootstrapPhase2 ss bootErr nodes with
    | Except.error e => Except.error e
    | Except.ok ws => Except.ok (cs, ws)

theorem connectInner_ok_of_withPeers (i : Nat) (n1 : node) (hw : n1.withPeers = true)
    (l : List (Nat × node)) :
    connectInner i n1 l =
      Except.ok ((l.filter (fun p => p.1 != i && p.2.Bootstrap)).map (fun p => (i, p.1))) := by
  induction l with
  | nil => rfl
  | cons q rest ih =>
    obtain ⟨j, n2⟩ := q
    rw [connectInner]
    by_cases hskip : (j == i || !n2.Bootstrap) = true
    · rw [if_pos hskip, ih]
      have : ((j, n2).1 != i && (j, n2).2.Bootstrap) = false := by
        simp only [Bool.or_eq_true, beq_iff_eq, Bool.not_eq_true'] at hskip
        rcases hskip with h | h <;> simp [h]
      rw [List.filter_cons, this]
      simp
    · rw [if_neg hskip, if_pos hw, ih]
      have : ((j, n2).1 != i && (j, n2).2.Bootstrap) = true := by
        simp only [Bool.or_eq_true, beq_iff_eq, Bool.not_eq_true', not_or] at hskip
        push_neg at hskip
        simp only [Bool.and_eq_true, bne_iff_ne, ne_eq]
        exact ⟨hskip.1, by simpa using hskip.2⟩
      rw [List.filter_cons, this]
      simp

theorem connectInner_error_of_no_withPeers (i : Nat) (n1 : node)
    (hw : n1.withPeers = false) (l : List (Nat × node))
    (hq : ∃ q ∈ l, q.1 ≠ i ∧ q.2.Bootstrap = true) :
    ∃ e, connectInner i n1 l = Except.error e := by
  induction l with
  | nil => simp at hq
  | cons q rest ih =>
    obtain ⟨j, n2⟩ := q
    rw [connectInner]
    by_cases hskip : (j == i || !n2.Bootstrap) = true
    · rw [if_pos hskip]
      refine ih ?_
      rcases hq with ⟨q, hqmem, hq1, hq2⟩
      rcases List.mem_cons.mp hqmem with rfl | hqrest
      · exfalso
        simp only [Bool.or_eq_true, beq_iff_eq, Bool.not_eq_true'] at hskip
        rcases hskip with h | h
        · exact hq1 h
        · rw [hq2] at h
          exact absurd h (by simp)
      · exact ⟨q, hqrest, hq1, hq2⟩
    · rw [if_neg hskip, if_neg (by simp [hw])]
      exact ⟨_, rfl⟩

theorem bootstrapPhase1_ok_servers (all : List (Nat × node)) (l : List (Nat × node))
    (ss : List server) (cs : List (Nat × Nat))
    (h : bootstrapPhase1 all l = Except.ok (ss, cs)) :
    ss = mkServers l := by
  induction l generalizing ss cs with
  | nil =>
    rw [bootstrapPhase1] at h
    injection h with h
    injection h with h1 h2
    simp [mkServers, ← h1]
  | cons q rest ih =>
    obtain ⟨i, n1⟩ := q
    rw [bootstrapPhase1] at h
    by_cases hb : n1.Bootstrap = true
    · rw [if_neg (by simp [hb])] at h
      revert h
      match hci : connectInner i n1 all with
      | Except.error e => intro h; exact absurd h (by simp)
      | Except.ok cs0 =>
        match hrec : bootstrapPhase1 all rest with
        | Except.error e => intro h; exact absurd h (by simp)
        | Except.ok (ss', cs') =>
          intro h
          injection h with h
          injection h with h1 h2
          have := ih ss' cs' hrec
          rw [← h1, this]
          simp [mkServers, List.filter_cons, hb]
    · rw [if_pos (by simp [hb])] at h
      have := ih ss cs h
      rw [this]
      simp only [Bool.not_eq_true] at hb
      simp [mkServers, List.filter_cons, hb]

theorem bootstrapPhase2_ok (cfg : List server) (bootErr : Nat → Option String)
    (l : List (Nat × node)) (ws : List (Nat × List server))
    (h : bootstrapPhase2 cfg bootErr l = Except.ok ws) :
    ws = (l.filter (fun p => p.2.Bootstrap)).map (fun p => (p.1, cfg)) ∧
    ∀ p ∈ l, p.2.Bootstrap = true → bootErr p.1 = none := by
  induction l generalizing ws with
  | nil =>
    rw [bootstrapPhase2] at h
    injection h with h
    exact ⟨by simp [← h], by simp⟩
  | cons q rest ih =>
    obtain ⟨i, n⟩ := q
    rw [bootstrapPhase2] at h
    by_cases hb : n.Bootstrap = true
    · rw [if_neg (by simp [hb])] at h
      revert h
      match hbe : bootErr i with
      | some e => intro h; exact absurd h (by simp)
      | none =>
        match hrec : bootstrapPhase2 cfg bootErr rest with
        | Except.error e => intro h; exact absurd h (by simp)
        | Except.ok ws' =>
          intro h
          injection h with h
          obtain ⟨hw, herr⟩ := ih ws' hrec
          constructor
          · rw [← h, hw]
            simp [List.filter_cons, hb]
          · intro p hp hpb
            rcases List.mem_cons.mp hp with rfl | hprest
            · exact hbe
            · exact herr p hprest hpb
    · rw [if_pos (by simp [hb])] at h
      obtain ⟨hw, herr⟩ := ih ws h
      simp only [Bool.not_eq_true] at hb
      constructor
      · rw [hw]
        simp [List.filter_cons, hb]
      · intro p hp hpb
        rcases List.mem_cons.mp hp with rfl | hprest
        · rw [hpb] at hb
          exact absurd hb (by simp)
        · exact herr p hprest hpb

theorem bootstrapPhase2_error_of_bootErr (cfg : List server) (bootErr : Nat → Option String)
    (l : List (Nat × node)) (hq : ∃ p ∈ l, p.2.Bootstrap = true ∧ bootErr p.1 ≠ none) :
    ∃ e, bootstrapPhase2 cfg bootErr l = Except.error e := by
  rcases hx : bootstrapPhase2 cfg bootErr l with e | ws
  · exact ⟨e, rfl⟩
  · obtain ⟨_, herr⟩ := bootstrapPhase2_ok cfg bootErr l ws hx
    rcases hq with ⟨p, hp, hpb, hpe⟩
    exact absurd (herr p hp hpb) hpe

theorem bootstrapCluster_of_phase1_ok (nodes : List (Nat × node))
    (bootErr : Nat → Option String) (ss : List server) (cs : List (Nat × Nat))
    (h1 : bootstrapPhase1 nodes nodes = Except.ok (ss, cs)) :
    bootstrapCluster nodes bootErr =
      (match bootstrapPhase2 ss bootErr nodes with
       | Except.error e => Except.error e
       | Except.ok ws => Except.ok (cs, ws)) := by
  rw [bootstrapCluster, h1]

theorem bootstrapCluster_of_phase1_error (nodes : List (Nat × node))
    (bootErr : Nat → Option String) (e : String)
    (h1 : bootstrapPhase1 nodes nodes = Except.error e) :
    bootstrapCluster nodes bootErr = Except.error e := by
  rw [bootstrapCluster, h1]

/-- C3: when `bootstrapCluster` succeeds, the bootstrap membership is the
one list `mkServers nodes`, computed from exactly the nodes whose bootstrap
flag is set, and it is written via one bootstrap call to every
bootstrapping node; and whenever some bootstrapping node's bootstrap call
would fail, the whole construction fails fatally, so partial bootstrap is
never an end state. -/
theorem bootstrapCluster_spec (nodes : List (Nat × node)) (bootErr : Nat → Option String) :
    (∀ cs ws, bootstrapCluster nodes bootErr = Except.ok (cs, ws) →
       ws = (nodes.filter (fun p => p.2.Bootstrap)).map (fun p => (p.1, mkServers nodes)) ∧
       ∀ p ∈ nodes, p.2.Bootstrap = true → bootErr p.1 = none) ∧
    ((∃ p ∈ nodes, p.2.Bootstrap = true ∧ bootErr p.1 ≠ none) →
       ∃ e, bootstrapCluster nodes bootErr = Except.error e) := by
  constructor
  · intro cs ws h
    rcases hp1 : bootstrapPhase1 nodes nodes with e | ⟨ss, cs0⟩
    · rw [bootstrapCluster_of_phase1_error nodes bootErr e hp1] at h
      exact absurd h (by simp)
    · rw [bootstrapCluster_of_phase1_ok nodes bootErr ss cs0 hp1] at h
      rcases hp2 : bootstrapPhase2 ss bootErr nodes with e | ws0
      · rw [hp2] at h
        exact absurd h (by simp)
      · rw [hp2] at h
        simp only [Except.ok.injEq, Prod.mk.injEq] at h
        obtain ⟨hw, herr⟩ := bootstrapPhase2_ok ss bootErr nodes ws0 hp2
        have hss : ss = mkServers nodes := bootstrapPhase1_ok_servers nodes nodes ss cs0 hp1
        refine ⟨?_, herr⟩
        rw [← h.2, hw, hss]
  · intro hq
    rcases hp1 : bootstrapPhase1 nodes nodes with e | ⟨ss, cs0⟩
    · exact ⟨e, bootstrapCluster_of_phase1_error nodes bootErr e hp1⟩
    · obtain ⟨e, he⟩ := bootstrapPhase2_error_of_bootErr ss bootErr nodes hq
      refine ⟨e, ?_⟩
      rw [bootstrapCluster_of_phase1_ok nodes bootErr ss cs0 hp1, he]

/-- C3 witness: two bootstrapping nodes with error-free bootstrap calls
both receive the same membership list; making the bootstrap calls fail
makes the whole construction fail. -/
theorem bootstrapCluster_spec_witness :
    (bootstrapCluster [(0, newDefaultNode 1 0), (1, newDefaultNode 1 1)] (fun _ => none) =
       Except.ok
         ([(0, 1), (1, 0)],
          [(0, mkServers [(0, newDefaultNode 1 0), (1, newDefaultNode 1 1)]),
           (1, mkServers [(0, newDefaultNode 1 0), (1, newDefaultNode 1 1)])])) ∧
    (∃ e, bootstrapCluster [(0, newDefaultNode 1 0), (1, newDefaultNode 1 1)]
       (fun _ => some "boom") = Except.error e) := by
  constructor
  · rfl
  · refine (bootstrapCluster_spec [(0, newDefaultNode 1 0), (1, newDefaultNode 1 1)]
      (fun _ => some "boom")).2 ?_
    exact ⟨(0, newDefaultNode 1 0), by simp, rfl, by simp⟩

/-- C4 counterexample: a cluster whose only bootstrapping node has a
transport without `WithPeers` bootstraps successfully — the construction
does not fail fatally, because the peer-connection capability is only
checked against each *other* bootstrapping node. -/
theorem bootstrapCluster_lone_without_peers_ok :
    ({ newDefaultNode 1 0 with withPeers := false }.Bootstrap = true ∧
     { newDefaultNode 1 0 with withPeers := false }.withPeers = false) ∧
    bootstrapCluster [(0, { newDefaultNode 1 0 with withPeers := false })] (fun _ => none) =
      Except.ok ([], [(0, [mkServer 0 { newDefaultNode 1 0 with withPeers := false }])]) := by
  exact ⟨⟨rfl, rfl⟩, rfl⟩

theorem bootstrapPhase1_mesh (nodes : List (Nat × node)) :
    ∀ l : List (Nat × node),
      (∀ p ∈ l, p.2.Bootstrap = true → p.2.withPeers = true) →
      ∀ ss cs, bootstrapPhase1 nodes l = Except.ok (ss, cs) →
      ∀ i j : Nat, (i, j) ∈ cs ↔
        (i ≠ j ∧
         (∃ n1, (i, n1) ∈ l ∧ n1.Bootstrap = true) ∧
         (∃ n2, (j, n2) ∈ nodes ∧ n2.Bootstrap = true)) := by
  intro l
  induction l with
  | nil =>
    intro _ ss cs h i j
    rw [bootstrapPhase1] at h
    injection h with h
    injection h with h1 h2
    simp [← h2]
  | cons q rest ih =>
    intro hwl ss cs h i j
    obtain ⟨a, n1⟩ := q
    rw [bootstrapPhase1] at h
    by_cases hb : n1.Bootstrap = true
    · rw [if_neg (by simp [hb])] at h
      have hwp : n1.withPeers = true := hwl (a, n1) (by simp) hb
      rw [connectInner_ok_of_withPeers a n1 hwp nodes] at h
      revert h
      match hrec : bootstrapPhase1 nodes rest with
      | Except.error e => intro h; exact absurd h (by simp)
      | Except.ok (ss', cs') =>
        intro h
        injection h with h
        injection h with h1 h2
        rw [← h2, List.mem_append]
        have hih := ih (fun p hp => hwl p (by simp [hp])) ss' cs' hrec i j
        constructor
        · intro hmem
          rcases hmem with hleft | hright
          · obtain ⟨p, hpmem, hpe⟩ := List.mem_map.mp hleft
            have hia : i = a := (congrArg Prod.fst hpe).symm
            have hjp : j = p.1 := (congrArg Prod.snd hpe).symm
            have hfil := List.of_mem_filter hpmem
            have hpmem' := List.mem_of_mem_filter hpmem
            simp only [Bool.and_eq_true, bne_iff_ne, ne_eq] at hfil
            subst hia
            subst hjp
            refine ⟨fun hc => hfil.1 hc.symm, ⟨n1, by simp, hb⟩, ⟨p.2, ?_, hfil.2⟩⟩
            rw [Prod.mk.eta]
            exact hpmem'
          · obtain ⟨hne, ⟨m1, hm1, hm1b⟩, hn2⟩ := hih.mp hright
            exact ⟨hne, ⟨m1, by simp [hm1], hm1b⟩, hn2⟩
        · rintro ⟨hne, ⟨m1, hm1, hm1b⟩, m2, hm2, hm2b⟩
          rcases List.mem_cons.mp hm1 with heq | hm1rest
          · left
            have hia : i = a := congrArg Prod.fst heq
            refine List.mem_map.mpr ⟨(j, m2), ?_, by rw [hia]⟩
            refine List.mem_filter.mpr ⟨hm2, ?_⟩
            simp only [Bool.and_eq_true, bne_iff_ne, ne_eq]
            exact ⟨fun hc => hne (by rw [hia, ← hc]), hm2b⟩
          · right
            exact hih.mpr ⟨hne, ⟨m1, hm1rest, hm1b⟩, m2, hm2, hm2b⟩
    · rw [if_pos (by simp [hb])] at h
      have hih := ih (fun p hp => hwl p (by simp [hp])) ss cs h i j
      rw [hih]
      constructor
      · rintro ⟨hne, ⟨m1, hm1, hm1b⟩, hn2⟩
        exact ⟨hne, ⟨m1, by simp [hm1], hm1b⟩, hn2⟩
      · rintro ⟨hne, ⟨m1, hm1, hm1b⟩, hn2⟩
        rcases List.mem_cons.mp hm1 with heq | hm1rest
        · exfalso
          have hmn : m1 = n1 := congrArg Prod.snd heq
          rw [hmn] at hm1b
          exact hb hm1b
        · exact ⟨hne, ⟨m1, hm1rest, hm1b⟩, hn2⟩

theorem bootstrapPhase1_error_of_no_withPeers (nodes : List (Nat × node)) :
    ∀ l : List (Nat × node),
      (∃ p ∈ l, p.2.Bootstrap = true ∧ p.2.withPeers = false ∧
         ∃ q ∈ nodes, q.1 ≠ p.1 ∧ q.2.Bootstrap = true) →
      ∃ e, bootstrapPhase1 nodes l = Except.error e := by
  intro l
  induction l with
  | nil => intro hx; simp at hx
  | cons q rest ih =>
    intro hx
    obtain ⟨a, n1⟩ := q
    rw [bootstrapPhase1]
    by_cases hb : n1.Bootstrap = true
    · rw [if_neg (by simp [hb])]
      by_cases hp : n1.withPeers = true
      · rw [connectInner_ok_of_withPeers a n1 hp nodes]
        rcases hx with ⟨p, hpmem, hpb, hpw, hq2⟩
        rcases List.mem_cons.mp hpmem with heq | hprest
        · exfalso
          have hpn : p.2 = n1 := congrArg Prod.snd heq
          rw [hpn] at hpw
          rw [hpw] at hp
          exact absurd hp (by simp)
        · obtain ⟨e, he⟩ := ih ⟨p, hprest, hpb, hpw, hq2⟩
          rw [he]
          exact ⟨e, rfl⟩
      · simp only [Bool.not_eq_true] at hp
        rcases hx with ⟨p, hpmem, hpb, hpw, hq2⟩
        rcases List.mem_cons.mp hpmem with heq | hprest
        · obtain ⟨q2, hq2mem, hq2ne, hq2b⟩ := hq2
          have hpa : p.1 = a := congrArg Prod.fst heq
          obtain ⟨e, he⟩ := connectInner_error_of_no_withPeers a n1 hp nodes
            ⟨q2, hq2mem, by rw [hpa] at hq2ne; exact hq2ne, hq2b⟩
          rw [he]
          exact ⟨e, rfl⟩
        · match hci : connectInner a n1 nodes with
          | Except.error e => exact ⟨e, rfl⟩
          | Except.ok cs0 =>
            obtain ⟨e, he⟩ := ih ⟨p, hprest, hpb, hpw, hq2⟩
            rw [he]
            exact ⟨e, rfl⟩
    · rw [if_pos (by simp [hb])]
      rcases hx with ⟨p, hpmem, hpb, hpw, hq2⟩
      rcases List.mem_cons.mp hpmem with heq | hprest
      · exfalso
        have hpn : p.2 = n1 := congrArg Prod.snd heq
        rw [hpn] at hpb
        exact hb hpb
      · exact ih ⟨p, hprest, hpb, hpw, hq2⟩

/-- C4 (amended): when every bootstrapping node's transport supports peer
connection, the connect pass performed before any bootstrap write connects
exactly every ordered pair of distinct bootstrapping nodes (a symmetric
full mesh), and nodes opted out of bootstrap are never connected;
construction fails fatally if a bootstrapping node's transport does not
support dynamic peer connection *and at least one other bootstrapping node
exists* (a lone bootstrapping node is never checked). -/
theorem bootstrapCluster_mesh (nodes : List (Nat × node)) (bootErr : Nat → Option String) :
    ((∀ p ∈ nodes, p.2.Bootstrap = true → p.2.withPeers = true) →
       ∀ ss cs, bootstrapPhase1 nodes nodes = Except.ok (ss, cs) →
         ∀ i j : Nat, (i, j) ∈ cs ↔
           (i ≠ j ∧
            (∃ n1, (i, n1) ∈ nodes ∧ n1.Bootstrap = true) ∧
            (∃ n2, (j, n2) ∈ nodes ∧ n2.Bootstrap = true))) ∧
    ((∃ p ∈ nodes, p.2.Bootstrap = true ∧ p.2.withPeers = false ∧
        ∃ q ∈ nodes, q.1 ≠ p.1 ∧ q.2.Bootstrap = true) →
       ∃ e, bootstrapCluster nodes bootErr = Except.error e) := by
  constructor
  · exact bootstrapPhase1_mesh nodes nodes
  · intro hq
    obtain ⟨e, he⟩ := bootstrapPhase1_error_of_no_withPeers nodes nodes hq
    exact ⟨e, bootstrapCluster_of_phase1_error nodes bootErr e he⟩

/-- C4 witness: with two default (peer-connectable, bootstrapping) nodes
and a third node opted out of bootstrap, the connect pass produces both
ordered pairs among the bootstrapping nodes and no pair involving the
opted-out node. -/
theorem bootstrapCluster_mesh_witness :
    ((0, 1) ∈ [(0, 1), (1, 0)] ∧ ¬ ((0, 2) ∈ [(0, 1), (1, 0)])) ∧
    bootstrapPhase1
        [(0, newDefaultNode 1 0), (1, newDefaultNode 1 1),
         (2, { newDefaultNode 1 2 with Bootstrap := false })]
        [(0, newDefaultNode 1 0), (1, newDefaultNode 1 1),
         (2, { newDefaultNode 1 2 with Bootstrap := false })] =
      Except.ok
        ([mkServer 0 (newDefaultNode 1 0), mkServer 1 (newDefaultNode 1 1)],
         [(0, 1), (1, 0)]) := by
  have h := (bootstrapCluster_mesh
      [(0, newDefaultNode 1 0), (1, newDefaultNode 1 1),
       (2, { newDefaultNode 1 2 with Bootstrap := false })] (fun _ => none)).1
      (by
        intro p hp hb
        fin_cases hp <;> simp_all [newDefaultNode])
      [mkServer 0 (newDefaultNode 1 0), mkServer 1 (newDefaultNode 1 1)]
      [(0, 1), (1, 0)] (by rfl)
  refine ⟨⟨?_, by decide⟩, by rfl⟩
  exact (h 0 1).mpr ⟨by omega, ⟨newDefaultNode 1 0, by simp, rfl⟩,
    ⟨newDefaultNode 1 1, by simp, rfl⟩⟩

/-! ## `Cluster` (cluster.go)

`Cluster` builds the default node map, applies the knob pre-hooks (modelled
as arbitrary transformations of the node map), bootstraps, then constructs
one raft instance per FSM index; the fallible `raft.NewRaft` call is
abstracted by the error environment `raftErr`.  A constructed raft handle
is represented by its node index.  Knob post-hooks only record the handles
and are omitted. -/

/-- The node map built by the construction loop of `Cluster`: indices `0`
to `n-1`, each with default dependencies. -/
def defaultNodes (n : Nat) (latency : ℚ) : List (Nat × node) :=
  (List.range n).map (fun i => (i, newDefaultNode latency i))

/-- Go map indexing `cluster.nodes[i]`. -/
def lookupNode (nodes : List (Nat × node)) (i : Nat) : Option node :=
  (nodes.find? (fun p => p.1 == i)).map Prod.snd

/-- The instance-construction loop of `Cluster`: for each index in order,
fetch the node's dependencies and create the raft instance, failing
fatally on any construction error. -/
def buildRafts (nodes : List (Nat × node)) (raftErr : Nat → Option String) :
    List Nat → Except String (List Nat)
  | [] => Except.ok []
  | i :: rest =>
    match lookupNode nodes i with
    | none => Except.error ("no dependencies for node " ++ toString i)
    | some _ =>
      match raftErr i with
      | some e => Except.error ("failed to start test raft node " ++ toString i ++ ": " ++ e)
      | none =>
        match buildRafts nodes raftErr rest with
        | Except.error e => Except.error e
        | Except.ok hs => Except.ok (i :: hs)

/-- `Cluster`: create `n` default nodes, run the knob pre-hooks, bootstrap
the cluster, and construct one raft instance per FSM. -/
def Cluster (n : Nat) (latency : ℚ) (knobs : List (List (Nat × node) → List (Nat × node)))
    (bootErr raftErr : Nat → Option String) : Except String (List Nat) :=
  let nodes := knobs.foldl (fun m k => k m) (defaultNodes n latency)
  match bootstrapCluster nodes bootErr with
  | Except.error e => Except.error e
  | Except.ok _ => buildRafts nodes raftErr (List.range n)

theorem buildRafts_ok (nodes : List (Nat × node)) (raftErr : Nat → Option String)
    (l : List Nat) (r : List Nat) (h : buildRafts nodes raftErr l = Except.ok r) :
    r = l := by
  induction l generalizing r with
  | nil =>
    rw [buildRafts] at h
    injection h with h
    exact h.symm
  | cons i rest ih =>
    rw [buildRafts] at h
    revert h
    match lookupNode nodes i with
    | none => intro h; exact absurd h (by simp)
    | some _ =>
      match raftErr i with
      | some e => intro h; exact absurd h (by simp)
      | none =>
        match hrec : buildRafts nodes raftErr rest with
        | Except.error e => intro h; exact absurd h (by simp)
        | Except.ok hs =>
          intro h
          injection h with h
          rw [← h, ih hs hrec]

/-- C5: for every `N ≥ 1`, `Cluster` with `N` FSMs and any knobs either
returns exactly `N` raft instances — one per index `0..N-1` — or fails
fatally (no partial cluster is an `ok` result); and the construction
allocates dependency sets at exactly the dense indices `0..N-1`, every one
flagged for bootstrap by default. -/
theorem Cluster_spec (n : Nat) (latency : ℚ)
    (knobs : List (List (Nat × node) → List (Nat × node)))
    (bootErr raftErr : Nat → Option String) (hn : 1 ≤ n) :
    (∀ r, Cluster n latency knobs bootErr raftErr = Except.ok r → r = List.range n) ∧
    (defaultNodes n latency).map Prod.fst = List.range n ∧
    (∀ p ∈ defaultNodes n latency, p.2.Bootstrap = true) := by
  refine ⟨?_, ?_, ?_⟩
  · intro r h
    simp only [Cluster] at h
    split at h
    · exact absurd h (by simp)
    · exact buildRafts_ok _ raftErr (List.range n) r h
  · rw [defaultNodes, List.map_map]
    exact List.map_id'' (fun x => rfl) _
  · intro p hp
    obtain ⟨i, _, hip⟩ := List.mem_map.mp hp
    rw [← hip]
    rfl

/-- C5 witness: a one-node cluster with no knobs and error-free external
calls returns exactly the handle list `[0]`, and its single default
dependency set is flagged for bootstrap. -/
theorem Cluster_spec_witness :
    Cluster 1 1 [] (fun _ => none) (fun _ => none) = Except.ok (List.range 1) ∧
    (∀ p ∈ defaultNodes 1 1, p.2.Bootstrap = true) := by
  refine ⟨?_, (Cluster_spec 1 1 [] (fun _ => none) (fun _ => none) (by decide)).2.2⟩
  rfl

/-! ## `Shutdown` (cluster.go)

`Shutdown` first requests shutdown from every node, collecting all the
futures, then starts a single 5-second timer and receives, once per
future, whichever comes first of a completion error or the timer.  Each
future is modelled as the wall-clock completion time (nanoseconds from the
common start, completions running concurrently) paired with the node's
reported error; completions reach the fan-in channel in time order, so the
receive loop processes them sorted by completion time, and the shared
timer fires when the next pending completion time reaches 5 seconds. -/

/-- The receive loop of `Shutdown` over completions in arrival order: a
completion before the 5-second ceiling with no error continues the loop;
an error fails the test; a completion not arriving before the ceiling
trips the timer and fails the test. -/
def shutdownLoop : List (ℚ × Option String) → Except String Unit
  | [] => Except.ok ()
  | q :: rest =>
    if q.1 < 5 * second then
      match q.2 with
      | none => shutdownLoop rest
      | some msg => Except.error ("failed to shutdown raft node: " ++ msg)
    else Except.error "cluster did not shutdown within 5 second"

/-- Insert a completion into a list sorted by completion time. -/
def insertByTime (p : ℚ × Option String) :
    List (ℚ × Option String) → List (ℚ × Option String)
  | [] => [p]
  | q :: rest => if p.1 ≤ q.1 then p :: q :: rest else q :: insertByTime p rest

/-- Sort completions by wall-clock completion time (arrival order on the
fan-in channel). -/
def sortByTime : List (ℚ × Option String) → List (ℚ × Option String)
  | [] => []
  | p :: rest => insertByTime p (sortByTime rest)

/-- `Shutdown`: all shutdown futures are issued up front, then awaited
through the fan-in receive loop in completion order. -/
def Shutdown (futures : List (ℚ × Option String)) : Except String Unit :=
  shutdownLoop (sortByTime futures)

theorem shutdownLoop_ok_iff (l : List (ℚ × Option String)) :
    shutdownLoop l = Except.ok () ↔ ∀ p ∈ l, p.1 < 5 * second ∧ p.2 = none := by
  induction l with
  | nil => simp [shutdownLoop]
  | cons q rest ih =>
    obtain ⟨c, e⟩ := q
    rw [shutdownLoop]
    by_cases hc : c < 5 * second
    · rw [if_pos hc]
      cases e with
      | none => simp [ih, hc]
      | some msg => simp [hc]
    · rw [if_neg hc]
      simp [hc]

theorem mem_insertByTime (p x : ℚ × Option String) (l : List (ℚ × Option String)) :
    x ∈ insertByTime p l ↔ x = p ∨ x ∈ l := by
  induction l with
  | nil => simp [insertByTime]
  | cons q rest ih =>
    rw [insertByTime]
    by_cases hle : p.1 ≤ q.1
    · rw [if_pos hle]
      simp
    · rw [if_neg hle]
      simp only [List.mem_cons, ih]
      tauto

theorem mem_sortByTime (x : ℚ × Option String) (l : List (ℚ × Option String)) :
    x ∈ sortByTime l ↔ x ∈ l := by
  induction l with
  | nil => simp [sortByTime]
  | cons q rest ih =>
    rw [sortByTime, mem_insertByTime]
    simp [ih]

/-- C6: all shutdown requests are issued before any wait, and `Shutdown`
then succeeds, reporting no error, exactly when every node completes its
graceful shutdown without error before the fixed 5-second ceiling measured
from the common start; a node error or a node exceeding the ceiling makes
it fail the test fatally. -/
theorem Shutdown_ok_iff (futures : List (ℚ × Option String)) :
    Shutdown futures = Except.ok () ↔
      ∀ p ∈ futures, p.1 < 5 * second ∧ p.2 = none := by
  rw [Shutdown, shutdownLoop_ok_iff]
  constructor
  · intro h p hp
    exact h p ((mem_sortByTime p futures).mpr hp)
  · intro h p hp
    exact h p ((mem_sortByTime p futures).mp hp)

/-- C6 witness: two nodes completing cleanly at 1s and 2s shut down
successfully; a node erroring at 1s, or completing only at 6s, makes
`Shutdown` fail. -/
theorem Shutdown_ok_iff_witness :
    Shutdown [(1 * second, none), (2 * second, none)] = Except.ok () ∧
    ¬ Shutdown [(1 * second, some "boom")] = Except.ok () ∧
    ¬ Shutdown [(6 * second, none)] = Except.ok () := by
  refine ⟨(Shutdown_ok_iff _).mpr ?_, ?_, ?_⟩
  · intro p hp
    fin_cases hp
    · exact ⟨by norm_num [second], rfl⟩
    · exact ⟨by norm_num [second], rfl⟩
  · intro h
    have := (Shutdown_ok_iff _).mp h (1 * second, some "boom") (by simp)
    simpa using this.2
  · intro h
    have := (Shutdown_ok_iff _).mp h (6 * second, none) (by simp)
    have h6 := this.1
    rw [second] at h6
    norm_num at h6

end RaftTest
